import Mathlib

/-!
Shallow embedding of `src/SeqAlign.py`: pairwise sequence alignment by dynamic
programming (Needleman-Wunsch / Smith-Waterman), together with theorems settling
the specification claims about it.

Sequences are `List Char`.  The numpy score matrix is modelled by its value
function `Nat → Nat → Int`.  The Python dict `subM` is modelled as
`Option (Char → Char → Int)` for configurations whose substitution matrix is
total on every queried pair, and as `Option (Char → Char → Option Int)` in the
traced fill `dynamic_programming`, where a `none` lookup models the `KeyError`
raised on an unmapped pair.
-/

namespace SeqAlign

/-- Embedding of the scoring expression of `dynamic_programming` / `backtracking`:
`subM[(a, b)] if subM is not None else (match_score if a == b else mismatch_score)`,
for configurations whose substitution matrix is total on the queried pairs. -/
def sub_score (subM : Option (Char → Char → Int)) (match_score mismatch_score : Int)
    (a b : Char) : Int :=
  match subM with
  | some f => f a b
  | none => if a = b then match_score else mismatch_score

/-- Inner loop of the fill (`for j in range(1, N)`), computing row `i+1` of the score
matrix given the previous row `prev` (row `i`), the row symbol `a = A[i]` and the
column-0 value `rowInit` of this row.  Candidate order follows the Python `max` call:
diagonal `scoreM[i-1][j-1] + score`, then left `scoreM[i][j-1] + gap_score`, then up
`scoreM[i-1][j] + gap_score`, floored at 0 exactly when the strategy string is
`"local"`. -/
def fillRow (B : List Char) (match_score mismatch_score : Int)
    (subM : Option (Char → Char → Int)) (gap_score : Int) (strategy : String)
    (prev : Nat → Int) (a : Char) (rowInit : Int) : Nat → Int
  | 0 => rowInit
  | j + 1 =>
    if strategy = "local" then
      max 0 (max (prev j + sub_score subM match_score mismatch_score a (B.getD j ' '))
        (max (fillRow B match_score mismatch_score subM gap_score strategy prev a rowInit j
            + gap_score)
          (prev (j + 1) + gap_score)))
    else
      max (prev j + sub_score subM match_score mismatch_score a (B.getD j ' '))
        (max (fillRow B match_score mismatch_score subM gap_score strategy prev a rowInit j
            + gap_score)
          (prev (j + 1) + gap_score))

/-- Pointwise value of the score matrix `scoreM` filled by `dynamic_programming`:
the matrix starts as `np.zeros`; row 0 and column 0 are overwritten with gap
multiples exactly when the strategy string is `"global"`; each interior cell is the
maximum of the three move candidates, floored at 0 exactly when the strategy string
is `"local"`. -/
def scoreM (A B : List Char) (match_score mismatch_score : Int)
    (subM : Option (Char → Char → Int)) (gap_score : Int) (strategy : String) :
    Nat → Nat → Int
  | 0 => fun j => if strategy = "global" then (j : Int) * gap_score else 0
  | i + 1 =>
    fillRow B match_score mismatch_score subM gap_score strategy
      (scoreM A B match_score mismatch_score subM gap_score strategy i) (A.getD i ' ')
      (if strategy = "global" then ((i : Int) + 1) * gap_score else 0)

/-- Cells of the `(m+1) × (n+1)` matrix in row-major (numpy C) order. -/
def gridCells (m n : Nat) : List (Nat × Nat) :=
  (List.range (m + 1)).flatMap fun i => (List.range (n + 1)).map fun j => (i, j)

/-- Embedding of `find_max_local`: `np.max` together with `np.argmax`, which returns
the first maximal cell in row-major order — modelled by a left fold that replaces the
current best only on strict improvement.  Returns `(score, i, j)`. -/
def find_max_local (M : Nat → Nat → Int) (m n : Nat) : Int × Nat × Nat :=
  (gridCells m n).foldl
    (fun best c => if M c.1 c.2 > best.1 then (M c.1 c.2, c.1, c.2) else best)
    (M 0 0, 0, 0)

/-- One row of the `while m > 0 and n > 0` backtrace loop of `backtracking`, at row
index `m+1`, with `prev n' = btLoop m n'` the loop outcome one row up.  The result is
`((alignmentA, alignmentB), final_m, final_n)`: the two lists of appended characters
in Python append order (before the final reversal) and the values of `m`, `n` when
the loop stops.  Branch order follows the Python `if`/`elif`/`else`: the local
zero-stop, then the diagonal move, then the up move, then the left move. -/
def btRow (A B : List Char) (M : Nat → Nat → Int) (match_score mismatch_score : Int)
    (subM : Option (Char → Char → Int)) (gap_score : Int) (strategy : String)
    (prev : Nat → (List Char × List Char) × Nat × Nat) (m : Nat) :
    Nat → (List Char × List Char) × Nat × Nat
  | 0 => (([], []), m + 1, 0)
  | n + 1 =>
    if strategy = "local" ∧ M (m + 1) (n + 1) = 0 then (([], []), m + 1, n + 1)
    else if M (m + 1) (n + 1)
        = M m n + sub_score subM match_score mismatch_score (A.getD m ' ') (B.getD n ' ') then
      ((A.getD m ' ' :: (prev n).1.1, B.getD n ' ' :: (prev n).1.2), (prev n).2)
    else if M (m + 1) (n + 1) = M m (n + 1) + gap_score then
      ((A.getD m ' ' :: (prev (n + 1)).1.1, '-' :: (prev (n + 1)).1.2), (prev (n + 1)).2)
    else
      (('-' ::
          (btRow A B M match_score mismatch_score subM gap_score strategy prev m n).1.1,
        B.getD n ' ' ::
          (btRow A B M match_score mismatch_score subM gap_score strategy prev m n).1.2),
        (btRow A B M match_score mismatch_score subM gap_score strategy prev m n).2)

/-- The backtrace loop of `backtracking`, from state `(m, n)`: the appended characters
of `alignmentA` and `alignmentB` in Python append order plus the final `(m, n)` when
the loop exits. -/
def btLoop (A B : List Char) (M : Nat → Nat → Int) (match_score mismatch_score : Int)
    (subM : Option (Char → Char → Int)) (gap_score : Int) (strategy : String) :
    Nat → Nat → (List Char × List Char) × Nat × Nat
  | 0 => fun n => (([], []), 0, n)
  | m + 1 =>
    btRow A B M match_score mismatch_score subM gap_score strategy
      (btLoop A B M match_score mismatch_score subM gap_score strategy m) m

/-- Embedding of the Python slice `s[k-1::-1]` used by the global flush.  For `k > 0`
this is the first `k` characters reversed; for `k = 0` the start index `k-1 = -1`
denotes the last element, so the slice is the whole string reversed. -/
def slice_rev (s : List Char) (k : Nat) : List Char :=
  if k = 0 then s.reverse else (s.take k).reverse

/-- Embedding of `backtracking`: start state from `find_max_local` for the local
strategy and `(len(A), len(B))` otherwise; run the backtrace loop; when the strategy
string is `"global"`, flush `A[m-1::-1]`, `'-' * n` onto `alignmentA` and `'-' * m`,
`B[n-1::-1]` onto `alignmentB` using the final loop state `(m, n)`; finally reverse
both lists.  Returns `(alignmentA, alignmentB, align_score)`. -/
def backtracking (A B : List Char) (M : Nat → Nat → Int)
    (match_score mismatch_score : Int) (subM : Option (Char → Char → Int))
    (gap_score : Int) (strategy : String) : List Char × List Char × Int :=
  let start :=
    if strategy = "local" then find_max_local M A.length B.length
    else (M A.length B.length, A.length, B.length)
  let r := btLoop A B M match_score mismatch_score subM gap_score strategy start.2.1 start.2.2
  let alignmentA :=
    if strategy = "global" then r.1.1 ++ slice_rev A r.2.1 ++ List.replicate r.2.2 '-'
    else r.1.1
  let alignmentB :=
    if strategy = "global" then r.1.2 ++ List.replicate r.2.1 '-' ++ slice_rev B r.2.2
    else r.1.2
  (alignmentA.reverse, alignmentB.reverse, start.1)

/-- Embedding of `align`: build the score matrix, backtrack on it, and return the
alignment triple together with the score matrix. -/
def align (seq1 seq2 : List Char) (match_score mismatch_score : Int)
    (substitution_matrix : Option (Char → Char → Int)) (gap_score : Int)
    (strategy : String) : (List Char × List Char × Int) × (Nat → Nat → Int) :=
  (backtracking seq1 seq2
      (scoreM seq1 seq2 match_score mismatch_score substitution_matrix gap_score strategy)
      match_score mismatch_score substitution_matrix gap_score strategy,
    scoreM seq1 seq2 match_score mismatch_score substitution_matrix gap_score strategy)

/-- Gap-marker removal used by the round-trip property of the specification. -/
def removeGaps (s : List Char) : List Char :=
  s.filter fun c => c ≠ '-'

/-- Dict lookup `subM[(a, b)]` of the traced fill: `none` models the `KeyError`
raised on an unmapped pair; with `subM` absent the match/mismatch expression always
yields a value. -/
def lookup_score (subM : Option (Char → Char → Option Int))
    (match_score mismatch_score : Int) (a b : Char) : Option Int :=
  match subM with
  | some f => f a b
  | none => some (if a = b then match_score else mismatch_score)

/-- Cells visited by the fill loop of `dynamic_programming`, in loop order:
`(i, j)` for `i in range(1, m+1)`, `j in range(1, n+1)`. -/
def fillCells (m n : Nat) : List (Nat × Nat) :=
  (List.range m).flatMap fun i => (List.range n).map fun j => (i + 1, j + 1)

/-- Single-cell update of the matrix value function (`scoreM[i, j] = v`). -/
def updM (M : Nat → Nat → Int) (i j : Nat) (v : Int) : Nat → Nat → Int :=
  fun i' j' => if i' = i ∧ j' = j then v else M i' j'

/-- Matrix state before the fill loop of `dynamic_programming` runs: `np.zeros`,
with row 0 and column 0 overwritten by gap multiples exactly when the strategy
string is `"global"`. -/
def initM (gap_score : Int) (strategy : String) : Nat → Nat → Int :=
  fun i j =>
    if strategy = "global" then
      if i = 0 then (j : Int) * gap_score
      else if j = 0 then (i : Int) * gap_score
      else 0
    else 0

/-- The fill loop of `dynamic_programming`, processing the remaining cells in loop
order while threading the matrix.  The error payload is the number of cells already
computed when the `KeyError` on an unmapped pair is raised, recording how much
matrix work preceded the failure. -/
def dpGo (A B : List Char) (match_score mismatch_score : Int)
    (subM : Option (Char → Char → Option Int)) (gap_score : Int) (strategy : String) :
    List (Nat × Nat) → (Nat → Nat → Int) → Nat → Except Nat (Nat → Nat → Int)
  | [], M, _ => .ok M
  | c :: rest, M, k =>
    match lookup_score subM match_score mismatch_score
        (A.getD (c.1 - 1) ' ') (B.getD (c.2 - 1) ' ') with
    | none => .error k
    | some s =>
      dpGo A B match_score mismatch_score subM gap_score strategy rest
        (updM M c.1 c.2
          (if strategy = "local" then
            max 0 (max (M (c.1 - 1) (c.2 - 1) + s)
              (max (M c.1 (c.2 - 1) + gap_score) (M (c.1 - 1) c.2 + gap_score)))
          else
            max (M (c.1 - 1) (c.2 - 1) + s)
              (max (M c.1 (c.2 - 1) + gap_score) (M (c.1 - 1) c.2 + gap_score))))
        (k + 1)

/-- Embedding of `dynamic_programming` with the execution of its fill loop traced:
initialise the matrix, then fill the cells in loop order; `Except.error k` models
the `KeyError` on an unmapped substitution-matrix pair, raised after `k` cells have
already been computed.  No validation of the strategy string is performed anywhere,
mirroring the source. -/
def dynamic_programming (A B : List Char) (match_score mismatch_score : Int)
    (subM : Option (Char → Char → Option Int)) (gap_score : Int) (strategy : String) :
    Except Nat (Nat → Nat → Int) :=
  dpGo A B match_score mismatch_score subM gap_score strategy
    (fillCells A.length B.length) (initM gap_score strategy) 0

/-- Concrete substitution dict containing only the pair `('A', 'A')`, used to
exhibit the mid-fill `KeyError` behaviour. -/
def subAA : Char → Char → Option Int :=
  fun a b => if a = 'A' ∧ b = 'A' then some 5 else none

/-! ### Unfolding lemmas for the matrix and the backtrace loop -/

lemma scoreM_row0 (A B : List Char) (ms mm : Int) (subM : Option (Char → Char → Int))
    (gap : Int) (strat : String) (j : Nat) :
    scoreM A B ms mm subM gap strat 0 j = if strat = "global" then (j : Int) * gap else 0 :=
  rfl

lemma scoreM_col0 (A B : List Char) (ms mm : Int) (subM : Option (Char → Char → Int))
    (gap : Int) (strat : String) (i : Nat) :
    scoreM A B ms mm subM gap strat i 0 = if strat = "global" then (i : Int) * gap else 0 := by
  cases i with
  | zero => rfl
  | succ i => simp only [scoreM, fillRow, Nat.cast_succ]

lemma scoreM_succ_succ (A B : List Char) (ms mm : Int) (subM : Option (Char → Char → Int))
    (gap : Int) (strat : String) (i j : Nat) :
    scoreM A B ms mm subM gap strat (i + 1) (j + 1) =
      if strat = "local" then
        max 0 (max (scoreM A B ms mm subM gap strat i j
            + sub_score subM ms mm (A.getD i ' ') (B.getD j ' '))
          (max (scoreM A B ms mm subM gap strat (i + 1) j + gap)
            (scoreM A B ms mm subM gap strat i (j + 1) + gap)))
      else
        max (scoreM A B ms mm subM gap strat i j
            + sub_score subM ms mm (A.getD i ' ') (B.getD j ' '))
          (max (scoreM A B ms mm subM gap strat (i + 1) j + gap)
            (scoreM A B ms mm subM gap strat i (j + 1) + gap)) :=
  rfl

lemma btLoop_zero_left (A B : List Char) (M : Nat → Nat → Int) (ms mm : Int)
    (subM : Option (Char → Char → Int)) (gap : Int) (strat : String) (n : Nat) :
    btLoop A B M ms mm subM gap strat 0 n = (([], []), 0, n) :=
  rfl

lemma btLoop_zero_right (A B : List Char) (M : Nat → Nat → Int) (ms mm : Int)
    (subM : Option (Char → Char → Int)) (gap : Int) (strat : String) (m : Nat) :
    btLoop A B M ms mm subM gap strat (m + 1) 0 = (([], []), m + 1, 0) :=
  rfl

lemma btLoop_succ_succ (A B : List Char) (M : Nat → Nat → Int) (ms mm : Int)
    (subM : Option (Char → Char → Int)) (gap : Int) (strat : String) (m n : Nat) :
    btLoop A B M ms mm subM gap strat (m + 1) (n + 1) =
      if strat = "local" ∧ M (m + 1) (n + 1) = 0 then (([], []), m + 1, n + 1)
      else if M (m + 1) (n + 1)
          = M m n + sub_score subM ms mm (A.getD m ' ') (B.getD n ' ') then
        ((A.getD m ' ' :: (btLoop A B M ms mm subM gap strat m n).1.1,
          B.getD n ' ' :: (btLoop A B M ms mm subM gap strat m n).1.2),
          (btLoop A B M ms mm subM gap strat m n).2)
      else if M (m + 1) (n + 1) = M m (n + 1) + gap then
        ((A.getD m ' ' :: (btLoop A B M ms mm subM gap strat m (n + 1)).1.1,
          '-' :: (btLoop A B M ms mm subM gap strat m (n + 1)).1.2),
          (btLoop A B M ms mm subM gap strat m (n + 1)).2)
      else
        (('-' :: (btLoop A B M ms mm subM gap strat (m + 1) n).1.1,
          B.getD n ' ' :: (btLoop A B M ms mm subM gap strat (m + 1) n).1.2),
          (btLoop A B M ms mm subM gap strat (m + 1) n).2) :=
  rfl

/-! ### Bridge: the traced fill returns exactly the scoreM matrix -/

lemma initM_boundary (A B : List Char) (ms mm : Int) (subM : Option (Char → Char → Int))
    (gap : Int) (strat : String) (i j : Nat) (h : i = 0 ∨ j = 0) :
    initM gap strat i j = scoreM A B ms mm subM gap strat i j := by
  rcases h with rfl | rfl
  · rw [scoreM_row0]
    unfold initM
    by_cases hg : strat = "global" <;> simp [hg]
  · rw [scoreM_col0]
    unfold initM
    by_cases hg : strat = "global"
    · by_cases hi : i = 0 <;> simp [hg, hi]
    · simp [hg]

lemma dpGo_cons_none (A B : List Char) (ms mm : Int)
    (subM' : Option (Char → Char → Option Int)) (gap : Int) (strat : String)
    (c : Nat × Nat) (rest : List (Nat × Nat)) (M : Nat → Nat → Int) (k : Nat)
    (hx : lookup_score subM' ms mm (A.getD (c.1 - 1) ' ') (B.getD (c.2 - 1) ' ') = none) :
    dpGo A B ms mm subM' gap strat (c :: rest) M k = Except.error k := by
  simp only [dpGo, hx]

lemma dpGo_cons_some (A B : List Char) (ms mm : Int)
    (subM' : Option (Char → Char → Option Int)) (gap : Int) (strat : String)
    (c : Nat × Nat) (rest : List (Nat × Nat)) (M : Nat → Nat → Int) (k : Nat) (s : Int)
    (hx : lookup_score subM' ms mm (A.getD (c.1 - 1) ' ') (B.getD (c.2 - 1) ' ') = some s) :
    dpGo A B ms mm subM' gap strat (c :: rest) M k
      = dpGo A B ms mm subM' gap strat rest
          (updM M c.1 c.2
            (if strat = "local" then
              max 0 (max (M (c.1 - 1) (c.2 - 1) + s)
                (max (M c.1 (c.2 - 1) + gap) (M (c.1 - 1) c.2 + gap)))
            else
              max (M (c.1 - 1) (c.2 - 1) + s)
                (max (M c.1 (c.2 - 1) + gap) (M (c.1 - 1) c.2 + gap))))
          (k + 1) := by
  simp only [dpGo, hx]

lemma dpGo_append_ok (A B : List Char) (ms mm : Int)
    (subM' : Option (Char → Char → Option Int)) (gap : Int) (strat : String)
    (l1 : List (Nat × Nat)) :
    ∀ (l2 : List (Nat × Nat)) (M M1 : Nat → Nat → Int) (k k' : Nat),
      dpGo A B ms mm subM' gap strat l1 M k = Except.ok M1 →
      dpGo A B ms mm subM' gap strat (l1 ++ l2) M k'
        = dpGo A B ms mm subM' gap strat l2 M1 (k' + l1.length) := by
  induction l1 with
  | nil =>
    intro l2 M M1 k k' h
    cases h
    rfl
  | cons c rest ih =>
    intro l2 M M1 k k' h
    cases hx : lookup_score subM' ms mm (A.getD (c.1 - 1) ' ') (B.getD (c.2 - 1) ' ') with
    | none => rw [dpGo_cons_none A B ms mm subM' gap strat c rest M k hx] at h; cases h
    | some s =>
      rw [dpGo_cons_some A B ms mm subM' gap strat c rest M k s hx] at h
      rw [List.cons_append, dpGo_cons_some A B ms mm subM' gap strat c _ M k' s hx,
        ih l2 _ M1 (k + 1) (k' + 1) h, List.length_cons]
      congr 1
      omega

lemma dpGo_row_agrees (A B : List Char) (ms mm : Int)
    (subM' : Option (Char → Char → Option Int)) (subM : Option (Char → Char → Int))
    (gap : Int) (strat : String) (n : Nat)
    (hL : ∀ a b, lookup_score subM' ms mm a b = some (sub_score subM ms mm a b))
    (r : Nat) :
    ∀ (c : Nat), c ≤ n → ∀ (M0 : Nat → Nat → Int) (k : Nat),
      (∀ i j, i ≤ r → j ≤ n → M0 i j = scoreM A B ms mm subM gap strat i j) →
      (∀ i j, r < i → M0 i j = initM gap strat i j) →
      ∃ M', dpGo A B ms mm subM' gap strat ((List.range c).map fun j => (r + 1, j + 1)) M0 k
          = Except.ok M' ∧
        (∀ i j, i ≤ r → j ≤ n → M' i j = scoreM A B ms mm subM gap strat i j) ∧
        (∀ j, j ≤ c → M' (r + 1) j = scoreM A B ms mm subM gap strat (r + 1) j) ∧
        (∀ j, c < j → M' (r + 1) j = initM gap strat (r + 1) j) ∧
        (∀ i j, r + 1 < i → M' i j = initM gap strat i j) := by
  intro c
  induction c with
  | zero =>
    intro _ M0 k h1 h2
    refine ⟨M0, rfl, h1, ?_, ?_, ?_⟩
    · intro j hj
      have hj0 : j = 0 := Nat.le_zero.mp hj
      subst hj0
      rw [h2 (r + 1) 0 (Nat.lt_succ_self r),
        initM_boundary A B ms mm subM gap strat (r + 1) 0 (Or.inr rfl)]
    · intro j _
      exact h2 (r + 1) j (Nat.lt_succ_self r)
    · intro i j hi
      exact h2 i j (Nat.lt_of_succ_lt hi)
  | succ c ih =>
    intro hc M0 k h1 h2
    have hcn : c ≤ n := Nat.le_of_succ_le hc
    obtain ⟨M', hok, g1, g2, g3, g4⟩ := ih hcn M0 k h1 h2
    rw [List.range_succ, List.map_append,
      dpGo_append_ok A B ms mm subM' gap strat _ _ M0 M' k _ hok]
    have hx := hL (A.getD ((r + 1) - 1) ' ') (B.getD ((c + 1) - 1) ' ')
    rw [List.map_singleton,
      dpGo_cons_some A B ms mm subM' gap strat (r + 1, c + 1) [] M' _
        (sub_score subM ms mm (A.getD ((r + 1) - 1) ' ') (B.getD ((c + 1) - 1) ' ')) hx]
    simp only [Nat.add_sub_cancel]
    have hv :
        (if strat = "local" then
          max 0 (max (M' r c + sub_score subM ms mm (A.getD r ' ') (B.getD c ' '))
            (max (M' (r + 1) c + gap) (M' r (c + 1) + gap)))
        else
          max (M' r c + sub_score subM ms mm (A.getD r ' ') (B.getD c ' '))
            (max (M' (r + 1) c + gap) (M' r (c + 1) + gap)))
          = scoreM A B ms mm subM gap strat (r + 1) (c + 1) := by
      rw [g1 r c (Nat.le_refl r) hcn, g2 c (Nat.le_refl c), g1 r (c + 1) (Nat.le_refl r) hc,
        scoreM_succ_succ]
    refine ⟨_, rfl, ?_, ?_, ?_, ?_⟩
    · intro i j hi hj
      rw [updM]
      rw [if_neg]
      · exact g1 i j hi hj
      · rintro ⟨rfl, rfl⟩
        omega
    · intro j hj
      rcases Nat.lt_succ_iff_lt_or_eq.mp (Nat.lt_succ_of_le hj) with hj' | rfl
      · rw [updM, if_neg]
        · exact g2 j (Nat.lt_succ_iff.mp hj')
        · rintro ⟨-, rfl⟩
          omega
      · rw [updM, if_pos ⟨rfl, rfl⟩]
        exact hv
    · intro j hj
      rw [updM, if_neg]
      · exact g3 j (Nat.lt_of_succ_lt hj)
      · rintro ⟨-, rfl⟩
        omega
    · intro i j hi
      rw [updM, if_neg]
      · exact g4 i j hi
      · rintro ⟨rfl, -⟩
        omega

lemma dpGo_fill_agrees (A B : List Char) (ms mm : Int)
    (subM' : Option (Char → Char → Option Int)) (subM : Option (Char → Char → Int))
    (gap : Int) (strat : String) (n : Nat)
    (hL : ∀ a b, lookup_score subM' ms mm a b = some (sub_score subM ms mm a b)) :
    ∀ m, ∃ M', dpGo A B ms mm subM' gap strat (fillCells m n) (initM gap strat) 0
        = Except.ok M' ∧
      (∀ i j, i ≤ m → j ≤ n → M' i j = scoreM A B ms mm subM gap strat i j) ∧
      (∀ i j, m < i → M' i j = initM gap strat i j) := by
  intro m
  induction m with
  | zero =>
    refine ⟨initM gap strat, rfl, ?_, fun i j _ => rfl⟩
    intro i j hi _
    have hi0 : i = 0 := Nat.le_zero.mp hi
    subst hi0
    exact initM_boundary A B ms mm subM gap strat 0 j (Or.inl rfl)
  | succ m ih =>
    obtain ⟨Mm, hok, h1, h2⟩ := ih
    have hsplit : fillCells (m + 1) n
        = fillCells m n ++ ((List.range n).map fun j => (m + 1, j + 1)) := by
      simp [fillCells, List.range_succ]
    obtain ⟨M', hok', g1, g2, g3, g4⟩ :=
      dpGo_row_agrees A B ms mm subM' subM gap strat n hL m n (Nat.le_refl n) Mm
        (0 + (fillCells m n).length) h1 h2
    refine ⟨M', ?_, ?_, g4⟩
    · rw [hsplit, dpGo_append_ok A B ms mm subM' gap strat _ _ (initM gap strat) Mm 0 _ hok]
      exact hok'
    · intro i j hi hj
      rcases Nat.lt_succ_iff_lt_or_eq.mp (Nat.lt_succ_of_le hi) with hi' | rfl
      · exact g1 i j (Nat.lt_succ_iff.mp hi') hj
      · exact g2 j hj

lemma dynamic_programming_ok_pointwise (A B : List Char) (ms mm : Int)
    (subM' : Option (Char → Char → Option Int)) (subM : Option (Char → Char → Int))
    (gap : Int) (strat : String)
    (hL : ∀ a b, lookup_score subM' ms mm a b = some (sub_score subM ms mm a b)) :
    ∃ M', dynamic_programming A B ms mm subM' gap strat = Except.ok M' ∧
      ∀ i j, i ≤ A.length → j ≤ B.length →
        M' i j = scoreM A B ms mm subM gap strat i j := by
  obtain ⟨M', hok, h1, _⟩ :=
    dpGo_fill_agrees A B ms mm subM' subM gap strat B.length hL A.length
  exact ⟨M', hok, h1⟩

/-! ### Claims C1, C2, C3: code bugs exhibited on concrete inputs -/

/-- C1: the round-trip claim fails on the code.  At seqA = seqB = "A" (global
strategy, match 2, mismatch -1, gap -1) the flush slice `A[m-1::-1]` is evaluated
at `m = 0`, where the Python start index `-1` denotes the last character, so the
whole already-consumed sequence is appended a second time: `align` returns
alignedA = alignedB = "AA", and removing gap markers from alignedA yields "AA",
not seqA = "A". -/
theorem C1_round_trip_broken :
    (align ['A'] ['A'] 2 (-1) none (-1) "global").1 = (['A', 'A'], ['A', 'A'], 2) ∧
    removeGaps (align ['A'] ['A'] 2 (-1) none (-1) "global").1.1 ≠ ['A'] := by
  decide

/-- C2: self-alignment does not return the input sequence.  For S = "AC" with
match 2 > mismatch -1 and match 2 > 2·gap = -2, global `align(S, S)` returns
alignedA = alignedB = "ACAC" (the flush bug of the slice `A[m-1::-1]` at `m = 0`
duplicates the fully consumed sequence), not alignedA = alignedB = "AC"; only the
score len(S)·match = 4 is as claimed. -/
theorem C2_self_alignment_broken :
    (align ['A', 'C'] ['A', 'C'] 2 (-1) none (-1) "global").1
      = (['A', 'C', 'A', 'C'], ['A', 'C', 'A', 'C'], 4) ∧
    (align ['A', 'C'] ['A', 'C'] 2 (-1) none (-1) "global").1
      ≠ (['A', 'C'], ['A', 'C'], 4) := by
  decide

/-- C3: no strategy validation exists in the code.  With the unsupported strategy
string "Global", `dynamic_programming` raises nothing and returns a filled matrix
(its docstring promises a ValueError for an unsupported strategy). -/
theorem C3_no_strategy_validation :
    ∃ M, dynamic_programming ['A'] ['C'] 2 (-1) none (-1) "Global" = Except.ok M :=
  ⟨_, rfl⟩

/-! ### Claim C4: the unmapped-pair error is raised mid-fill, not before any cell -/

/-- Processing `pre ++ c :: post` fails with payload `k + pre.length` when every
lookup over `pre` succeeds and the lookup at `c` is unmapped: exactly the cells of
`pre` are computed before the `KeyError`. -/
lemma dpGo_error_split (A B : List Char) (ms mm : Int) (g : Char → Char → Option Int)
    (gap : Int) (strat : String) (pre : List (Nat × Nat)) :
    ∀ (c : Nat × Nat) (post : List (Nat × Nat)) (M : Nat → Nat → Int) (k : Nat),
      (∀ d ∈ pre, (lookup_score (some g) ms mm
        (A.getD (d.1 - 1) ' ') (B.getD (d.2 - 1) ' ')).isSome = true) →
      lookup_score (some g) ms mm (A.getD (c.1 - 1) ' ') (B.getD (c.2 - 1) ' ') = none →
      dpGo A B ms mm (some g) gap strat (pre ++ c :: post) M k
        = Except.error (k + pre.length) := by
  induction pre with
  | nil =>
    intro c post M k _ hc
    simp only [List.nil_append, dpGo]
    rw [hc]
    simp
  | cons d pre ih =>
    intro c post M k hpre hc
    obtain ⟨s, hs⟩ := Option.isSome_iff_exists.mp (hpre d (List.mem_cons_self d pre))
    simp only [List.cons_append, dpGo, hs, List.append_eq]
    rw [ih c post _ (k + 1) (fun d' hd' => hpre d' (List.mem_cons_of_mem d hd')) hc]
    congr 1
    simp only [List.length_cons]
    omega

/-- C4 (amended): with a substitution matrix lacking an entry, the error is raised
from inside the fill loop at the first cell, in loop order, whose symbol pair is
unmapped — after all cells before it have been computed (the error payload equals
the number of cells of the loop-order prefix preceding the failing cell). -/
theorem C4_mid_fill_failure (A B : List Char) (ms mm : Int) (g : Char → Char → Option Int)
    (gap : Int) (strat : String) (pre : List (Nat × Nat)) (c : Nat × Nat)
    (post : List (Nat × Nat))
    (hsplit : fillCells A.length B.length = pre ++ c :: post)
    (hpre : ∀ d ∈ pre, (lookup_score (some g) ms mm
      (A.getD (d.1 - 1) ' ') (B.getD (d.2 - 1) ' ')).isSome = true)
    (hc : lookup_score (some g) ms mm (A.getD (c.1 - 1) ' ') (B.getD (c.2 - 1) ' ') = none) :
    dynamic_programming A B ms mm (some g) gap strat = Except.error pre.length := by
  unfold dynamic_programming
  rw [hsplit, dpGo_error_split A B ms mm g gap strat pre c post _ 0 hpre hc]
  simp

/-- C4: counterexample to the claim as stated.  A = "A", B = "AC" with a
substitution dict mapping only ('A','A'): the fill loop computes cell (1,1)
successfully and only then raises the `KeyError` at cell (1,2) — one cell of
matrix work before the failure, not a fail-fast validation error. -/
theorem C4_counterexample :
    dynamic_programming ['A'] ['A', 'C'] 2 (-1) (some subAA) (-1) "global"
      = Except.error 1 ∧ (1 : Nat) ≠ 0 :=
  ⟨rfl, by decide⟩

/-- C4 witness: the amended theorem applied at the concrete failing configuration. -/
theorem C4_witness :
    fillCells (List.length ['A']) (List.length ['A', 'C']) = [(1, 1)] ++ (1, 2) :: [] ∧
    dynamic_programming ['A'] ['A', 'C'] 2 (-1) (some subAA) (-1) "global"
      = Except.error (List.length [((1 : Nat), (1 : Nat))]) :=
  ⟨by decide,
    C4_mid_fill_failure ['A'] ['A', 'C'] 2 (-1) subAA (-1) "global" [(1, 1)] (1, 2) []
      (by decide) (by decide) (by decide)⟩

/-! ### Claims C6, C7: matrix invariants -/

/-- C6: the matrix filled with the local strategy is nonnegative everywhere and has
zero row 0 and column 0 — stated on the matrix value function `scoreM` and, through
the bridge, on the matrix an error-free run of `dynamic_programming` returns. -/
theorem C6_local_matrix (A B : List Char) (ms mm : Int) (subM : Option (Char → Char → Int))
    (gap : Int) (i j : Nat) (hi : i ≤ A.length) (hj : j ≤ B.length) :
    (0 ≤ scoreM A B ms mm subM gap "local" i j ∧
      scoreM A B ms mm subM gap "local" 0 j = 0 ∧
      scoreM A B ms mm subM gap "local" i 0 = 0) ∧
    (∀ subM' : Option (Char → Char → Option Int),
      (∀ a b, lookup_score subM' ms mm a b = some (sub_score subM ms mm a b)) →
      ∀ M', dynamic_programming A B ms mm subM' gap "local" = Except.ok M' →
        0 ≤ M' i j ∧ M' 0 j = 0 ∧ M' i 0 = 0) := by
  have hlg : ("local" : String) ≠ "global" := by decide
  have key : 0 ≤ scoreM A B ms mm subM gap "local" i j ∧
      scoreM A B ms mm subM gap "local" 0 j = 0 ∧
      scoreM A B ms mm subM gap "local" i 0 = 0 := by
    refine ⟨?_, ?_, ?_⟩
    · cases i with
      | zero => rw [scoreM_row0, if_neg hlg]
      | succ i =>
        cases j with
        | zero => rw [scoreM_col0, if_neg hlg]
        | succ j => rw [scoreM_succ_succ, if_pos rfl]; exact le_max_left 0 _
    · rw [scoreM_row0, if_neg hlg]
    · rw [scoreM_col0, if_neg hlg]
  refine ⟨key, fun subM' hL M' hM' => ?_⟩
  obtain ⟨M'', hok, hpt⟩ :=
    dynamic_programming_ok_pointwise A B ms mm subM' subM gap "local" hL
  rw [hM'] at hok
  cases hok
  rw [hpt i j hi hj, hpt 0 j (Nat.zero_le _) hj, hpt i 0 hi (Nat.zero_le _)]
  exact key

/-- C6 witness: the local invariants at the concrete cell (1, 1) of aligning "A"
against "C". -/
theorem C6_witness :
    1 ≤ List.length ['A'] ∧ 1 ≤ List.length ['C'] ∧
    ((0 ≤ scoreM ['A'] ['C'] 2 (-1) none (-1) "local" 1 1 ∧
      scoreM ['A'] ['C'] 2 (-1) none (-1) "local" 0 1 = 0 ∧
      scoreM ['A'] ['C'] 2 (-1) none (-1) "local" 1 0 = 0) ∧
    (∀ subM' : Option (Char → Char → Option Int),
      (∀ a b, lookup_score subM' 2 (-1) a b = some (sub_score none 2 (-1) a b)) →
      ∀ M', dynamic_programming ['A'] ['C'] 2 (-1) subM' (-1) "local" = Except.ok M' →
        0 ≤ M' 1 1 ∧ M' 0 1 = 0 ∧ M' 1 0 = 0)) :=
  ⟨by decide, by decide,
    C6_local_matrix ['A'] ['C'] 2 (-1) none (-1) 1 1 (by decide) (by decide)⟩

/-- C7: the matrix filled with the global strategy has gap-multiple boundaries:
M[0][j] = j·gap and M[i][0] = i·gap — stated on the matrix value function `scoreM`
and, through the bridge, on the matrix an error-free run of `dynamic_programming`
returns. -/
theorem C7_global_boundary (A B : List Char) (ms mm : Int)
    (subM : Option (Char → Char → Int)) (gap : Int) (i j : Nat)
    (hi : i ≤ A.length) (hj : j ≤ B.length) :
    (scoreM A B ms mm subM gap "global" 0 j = (j : Int) * gap ∧
      scoreM A B ms mm subM gap "global" i 0 = (i : Int) * gap) ∧
    (∀ subM' : Option (Char → Char → Option Int),
      (∀ a b, lookup_score subM' ms mm a b = some (sub_score subM ms mm a b)) →
      ∀ M', dynamic_programming A B ms mm subM' gap "global" = Except.ok M' →
        M' 0 j = (j : Int) * gap ∧ M' i 0 = (i : Int) * gap) := by
  have key : scoreM A B ms mm subM gap "global" 0 j = (j : Int) * gap ∧
      scoreM A B ms mm subM gap "global" i 0 = (i : Int) * gap := by
    constructor
    · rw [scoreM_row0, if_pos rfl]
    · rw [scoreM_col0, if_pos rfl]
  refine ⟨key, fun subM' hL M' hM' => ?_⟩
  obtain ⟨M'', hok, hpt⟩ :=
    dynamic_programming_ok_pointwise A B ms mm subM' subM gap "global" hL
  rw [hM'] at hok
  cases hok
  rw [hpt 0 j (Nat.zero_le _) hj, hpt i 0 hi (Nat.zero_le _)]
  exact key

/-- C7 witness: gap-multiple boundary values at row 1, column 2 of aligning "A"
against "CG" with gap score -3. -/
theorem C7_witness :
    1 ≤ List.length ['A'] ∧ 2 ≤ List.length ['C', 'G'] ∧
    ((scoreM ['A'] ['C', 'G'] 2 (-1) none (-3) "global" 0 2 = (2 : Int) * (-3) ∧
      scoreM ['A'] ['C', 'G'] 2 (-1) none (-3) "global" 1 0 = (1 : Int) * (-3)) ∧
    (∀ subM' : Option (Char → Char → Option Int),
      (∀ a b, lookup_score subM' 2 (-1) a b = some (sub_score none 2 (-1) a b)) →
      ∀ M', dynamic_programming ['A'] ['C', 'G'] 2 (-1) subM' (-3) "global" = Except.ok M' →
        M' 0 2 = (2 : Int) * (-3) ∧ M' 1 0 = (1 : Int) * (-3))) :=
  ⟨by decide, by decide,
    C7_global_boundary ['A'] ['C', 'G'] 2 (-1) none (-3) 1 2 (by decide) (by decide)⟩

/-! ### Claim C5: fixed backtrace priority diagonal > up > left -/

/-- C5: at every non-stopping step of the backtrace loop the moves are tried in the
fixed order diagonal, then up, then left: when the current cell equals the
recomputed diagonal candidate the diagonal move is taken (no hypothesis excludes a
simultaneous up or left tie); otherwise when it equals the up candidate the up move
is taken; otherwise the left move is taken.  This holds for every strategy string,
with only the local zero-stop excluded. -/
theorem C5_tie_break_priority (A B : List Char) (M : Nat → Nat → Int) (ms mm : Int)
    (subM : Option (Char → Char → Int)) (gap : Int) (strat : String) (m n : Nat)
    (h0 : ¬(strat = "local" ∧ M (m + 1) (n + 1) = 0)) :
    (M (m + 1) (n + 1) = M m n + sub_score subM ms mm (A.getD m ' ') (B.getD n ' ') →
      btLoop A B M ms mm subM gap strat (m + 1) (n + 1) =
        ((A.getD m ' ' :: (btLoop A B M ms mm subM gap strat m n).1.1,
          B.getD n ' ' :: (btLoop A B M ms mm subM gap strat m n).1.2),
          (btLoop A B M ms mm subM gap strat m n).2)) ∧
    (M (m + 1) (n + 1) ≠ M m n + sub_score subM ms mm (A.getD m ' ') (B.getD n ' ') →
      M (m + 1) (n + 1) = M m (n + 1) + gap →
      btLoop A B M ms mm subM gap strat (m + 1) (n + 1) =
        ((A.getD m ' ' :: (btLoop A B M ms mm subM gap strat m (n + 1)).1.1,
          '-' :: (btLoop A B M ms mm subM gap strat m (n + 1)).1.2),
          (btLoop A B M ms mm subM gap strat m (n + 1)).2)) ∧
    (M (m + 1) (n + 1) ≠ M m n + sub_score subM ms mm (A.getD m ' ') (B.getD n ' ') →
      M (m + 1) (n + 1) ≠ M m (n + 1) + gap →
      btLoop A B M ms mm subM gap strat (m + 1) (n + 1) =
        (('-' :: (btLoop A B M ms mm subM gap strat (m + 1) n).1.1,
          B.getD n ' ' :: (btLoop A B M ms mm subM gap strat (m + 1) n).1.2),
          (btLoop A B M ms mm subM gap strat (m + 1) n).2)) := by
  refine ⟨fun hd => ?_, fun hnd hu => ?_, fun hnd hnu => ?_⟩
  · rw [btLoop_succ_succ, if_neg h0, if_pos hd]
  · rw [btLoop_succ_succ, if_neg h0, if_neg hnd, if_pos hu]
  · rw [btLoop_succ_succ, if_neg h0, if_neg hnd, if_neg hnu]

/-- Constant-zero matrix: at its cell (1,1) with zero scores and zero gap the
diagonal, up and left candidates all tie with the cell value. -/
def zeroMat : Nat → Nat → Int :=
  fun _ _ => 0

/-- C5 witness: a three-way tie in which the diagonal move is taken. -/
theorem C5_witness :
    zeroMat 1 1 = zeroMat 0 0 + sub_score none 0 0 'A' 'A' ∧
    zeroMat 1 1 = zeroMat 0 1 + 0 ∧
    zeroMat 1 1 = zeroMat 1 0 + 0 ∧
    btLoop ['A'] ['A'] zeroMat 0 0 none 0 "global" 1 1 = ((['A'], ['A']), 0, 0) :=
  ⟨by decide, by decide, by decide,
    (C5_tie_break_priority ['A'] ['A'] zeroMat 0 0 none 0 "global" 0 0 (by decide)).1
      (by decide)⟩

/-! ### Claim C9: unsupported strategy strings yield a hybrid matrix, no error -/

lemma dpGo_none_ok (A B : List Char) (ms mm gap : Int) (strat : String) :
    ∀ (cells : List (Nat × Nat)) (M : Nat → Nat → Int) (k : Nat),
      ∃ M', dpGo A B ms mm none gap strat cells M k = Except.ok M' := by
  intro cells
  induction cells with
  | nil => intro M k; exact ⟨M, rfl⟩
  | cons c rest ih =>
    intro M k
    exact ih _ (k + 1)

/-- C9: for a strategy string that is neither "global" nor "local" (such as
"Global"), `dynamic_programming` raises no error, and the matrix has the
local-style all-zero row 0 and column 0 (no gap-penalty initialisation) while
every interior cell follows the unfloored global recurrence. -/
theorem C9_hybrid_strategy (strat : String) (h1 : strat ≠ "global") (h2 : strat ≠ "local")
    (A B : List Char) (ms mm : Int) (subM : Option (Char → Char → Int)) (gap : Int) :
    (∃ M, dynamic_programming A B ms mm none gap strat = Except.ok M) ∧
    (∀ j, scoreM A B ms mm subM gap strat 0 j = 0) ∧
    (∀ i, scoreM A B ms mm subM gap strat i 0 = 0) ∧
    (∀ i j, scoreM A B ms mm subM gap strat (i + 1) (j + 1) =
      max (scoreM A B ms mm subM gap strat i j
          + sub_score subM ms mm (A.getD i ' ') (B.getD j ' '))
        (max (scoreM A B ms mm subM gap strat (i + 1) j + gap)
          (scoreM A B ms mm subM gap strat i (j + 1) + gap))) ∧
    (∀ subM' : Option (Char → Char → Option Int),
      (∀ a b, lookup_score subM' ms mm a b = some (sub_score subM ms mm a b)) →
      ∀ M', dynamic_programming A B ms mm subM' gap strat = Except.ok M' →
        ∀ i j, i ≤ A.length → j ≤ B.length →
          M' i j = scoreM A B ms mm subM gap strat i j) := by
  refine ⟨dpGo_none_ok A B ms mm gap strat _ _ _, fun j => ?_, fun i => ?_, fun i j => ?_,
    fun subM' hL M' hM' => ?_⟩
  · rw [scoreM_row0, if_neg h1]
  · rw [scoreM_col0, if_neg h1]
  · rw [scoreM_succ_succ, if_neg h2]
  · obtain ⟨M'', hok, hpt⟩ :=
      dynamic_programming_ok_pointwise A B ms mm subM' subM gap strat hL
    rw [hM'] at hok
    cases hok
    exact hpt

/-- C9 witness: the hybrid behaviour at the miscapitalised strategy "Global". -/
theorem C9_witness :
    ("Global" : String) ≠ "global" ∧ ("Global" : String) ≠ "local" ∧
    ((∃ M, dynamic_programming ['A'] ['C'] 2 (-1) none (-1) "Global" = Except.ok M) ∧
      (∀ j, scoreM ['A'] ['C'] 2 (-1) none (-1) "Global" 0 j = 0) ∧
      (∀ i, scoreM ['A'] ['C'] 2 (-1) none (-1) "Global" i 0 = 0) ∧
      (∀ i j, scoreM ['A'] ['C'] 2 (-1) none (-1) "Global" (i + 1) (j + 1) =
        max (scoreM ['A'] ['C'] 2 (-1) none (-1) "Global" i j
            + sub_score none 2 (-1) ((['A'] : List Char).getD i ' ')
              ((['C'] : List Char).getD j ' '))
          (max (scoreM ['A'] ['C'] 2 (-1) none (-1) "Global" (i + 1) j + (-1))
            (scoreM ['A'] ['C'] 2 (-1) none (-1) "Global" i (j + 1) + (-1)))) ∧
      (∀ subM' : Option (Char → Char → Option Int),
        (∀ a b, lookup_score subM' 2 (-1) a b = some (sub_score none 2 (-1) a b)) →
        ∀ M', dynamic_programming ['A'] ['C'] 2 (-1) subM' (-1) "Global" = Except.ok M' →
          ∀ i j, i ≤ List.length ['A'] → j ≤ List.length ['C'] →
            M' i j = scoreM ['A'] ['C'] 2 (-1) none (-1) "Global" i j)) :=
  ⟨by decide, by decide,
    C9_hybrid_strategy "Global" (by decide) (by decide) ['A'] ['C'] 2 (-1) none (-1)⟩

/-! ### Claim C10: with a substitution matrix, match/mismatch scores are dead -/

lemma sub_score_some (f : Char → Char → Int) (ms mm : Int) (a b : Char) :
    sub_score (some f) ms mm a b = f a b :=
  rfl

lemma fillRow_some_irrel (B : List Char) (f : Char → Char → Int) (ms mm ms' mm' gap : Int)
    (strat : String) (prev prev' : Nat → Int) (a : Char) (ri : Int)
    (hp : ∀ j, prev j = prev' j) :
    ∀ j, fillRow B ms mm (some f) gap strat prev a ri j
      = fillRow B ms' mm' (some f) gap strat prev' a ri j := by
  intro j
  induction j with
  | zero => rfl
  | succ j ih => simp only [fillRow, sub_score_some, hp, ih]

lemma scoreM_some_irrel (A B : List Char) (f : Char → Char → Int) (ms mm ms' mm' gap : Int)
    (strat : String) :
    ∀ i j, scoreM A B ms mm (some f) gap strat i j
      = scoreM A B ms' mm' (some f) gap strat i j := by
  intro i
  induction i with
  | zero => intro j; rfl
  | succ i ih =>
    intro j
    exact fillRow_some_irrel B f ms mm ms' mm' gap strat _ _ (A.getD i ' ') _ ih j

lemma btRow_some_irrel (A B : List Char) (M : Nat → Nat → Int) (f : Char → Char → Int)
    (ms mm ms' mm' gap : Int) (strat : String)
    (prev prev' : Nat → (List Char × List Char) × Nat × Nat) (m : Nat)
    (hp : ∀ n, prev n = prev' n) :
    ∀ n, btRow A B M ms mm (some f) gap strat prev m n
      = btRow A B M ms' mm' (some f) gap strat prev' m n := by
  intro n
  induction n with
  | zero => rfl
  | succ n ih => simp only [btRow, sub_score_some, hp, ih]

lemma btLoop_some_irrel (A B : List Char) (M : Nat → Nat → Int) (f : Char → Char → Int)
    (ms mm ms' mm' gap : Int) (strat : String) :
    ∀ m n, btLoop A B M ms mm (some f) gap strat m n
      = btLoop A B M ms' mm' (some f) gap strat m n := by
  intro m
  induction m with
  | zero => intro n; rfl
  | succ m ih => intro n; exact btRow_some_irrel A B M f ms mm ms' mm' gap strat _ _ m ih n

lemma backtracking_some_irrel (A B : List Char) (M : Nat → Nat → Int)
    (f : Char → Char → Int) (ms mm ms' mm' gap : Int) (strat : String) :
    backtracking A B M ms mm (some f) gap strat
      = backtracking A B M ms' mm' (some f) gap strat := by
  have h : btLoop A B M ms mm (some f) gap strat = btLoop A B M ms' mm' (some f) gap strat :=
    funext fun m => funext fun n => btLoop_some_irrel A B M f ms mm ms' mm' gap strat m n
  simp only [backtracking, h]

lemma dpGo_some_irrel (A B : List Char) (g : Char → Char → Option Int)
    (ms mm ms' mm' gap : Int) (strat : String) :
    ∀ (cells : List (Nat × Nat)) (M : Nat → Nat → Int) (k : Nat),
      dpGo A B ms mm (some g) gap strat cells M k
        = dpGo A B ms' mm' (some g) gap strat cells M k := by
  intro cells
  induction cells with
  | nil => intro M k; rfl
  | cons c rest ih =>
    intro M k
    simp only [dpGo, lookup_score]
    cases g (A.getD (c.1 - 1) ' ') (B.getD (c.2 - 1) ' ') with
    | none => rfl
    | some s => exact ih _ _

/-- C10: whenever a substitution matrix is supplied, the match and mismatch score
parameters have no influence: the score matrix, the backtracking result on any
matrix, the full `align` output, and the traced fill are all identical for any two
choices of those parameters. -/
theorem C10_match_scores_shadowed (A B : List Char) (f : Char → Char → Int)
    (ms mm ms' mm' gap : Int) (strat : String) :
    (∀ i j, scoreM A B ms mm (some f) gap strat i j
      = scoreM A B ms' mm' (some f) gap strat i j) ∧
    (∀ M : Nat → Nat → Int, backtracking A B M ms mm (some f) gap strat
      = backtracking A B M ms' mm' (some f) gap strat) ∧
    align A B ms mm (some f) gap strat = align A B ms' mm' (some f) gap strat ∧
    (∀ g : Char → Char → Option Int,
      dynamic_programming A B ms mm (some g) gap strat
        = dynamic_programming A B ms' mm' (some g) gap strat) := by
  refine ⟨scoreM_some_irrel A B f ms mm ms' mm' gap strat,
    fun M => backtracking_some_irrel A B M f ms mm ms' mm' gap strat, ?_,
    fun g => dpGo_some_irrel A B g ms mm ms' mm' gap strat _ _ _⟩
  have hS : scoreM A B ms mm (some f) gap strat = scoreM A B ms' mm' (some f) gap strat :=
    funext fun i => funext fun j => scoreM_some_irrel A B f ms mm ms' mm' gap strat i j
  simp only [align, hS, backtracking_some_irrel A B _ f ms mm ms' mm' gap strat]

/-! ### Claim C8: empty sequences are accepted, not errors -/

lemma slice_rev_length (B : List Char) : slice_rev B B.length = B.reverse := by
  by_cases h : B.length = 0
  · rw [slice_rev, if_pos h]
  · rw [slice_rev, if_neg h, List.take_length]

lemma slice_rev_nil (k : Nat) : slice_rev [] k = [] := by
  rw [slice_rev]
  simp

lemma align_global_empty_left (B : List Char) (ms mm : Int)
    (subM : Option (Char → Char → Int)) (gap : Int) :
    (align [] B ms mm subM gap "global").1
      = (List.replicate B.length '-', B, (B.length : Int) * gap) := by
  have hgl : ¬ ("global" : String) = "local" := by decide
  simp only [align, backtracking, List.length_nil, if_neg hgl, if_pos rfl, if_true,
    btLoop_zero_left, scoreM_row0, slice_rev_length, slice_rev_nil, List.nil_append,
    List.replicate_zero, List.append_nil, List.reverse_replicate, List.reverse_reverse]

lemma foldl_max_const (M : Nat → Nat → Int) (L : List (Nat × Nat)) :
    ∀ b : Int × Nat × Nat, (∀ c ∈ L, ¬ M c.1 c.2 > b.1) →
      L.foldl (fun best c => if M c.1 c.2 > best.1 then (M c.1 c.2, c.1, c.2) else best) b
        = b := by
  induction L with
  | nil => intro b _; rfl
  | cons c rest ih =>
    intro b h
    simp only [List.foldl_cons, if_neg (h c (List.mem_cons_self c rest))]
    exact ih b fun c' hc' => h c' (List.mem_cons_of_mem c hc')

lemma find_max_local_all_zero (M : Nat → Nat → Int) (m n : Nat)
    (h : ∀ c ∈ gridCells m n, M c.1 c.2 = 0) (h00 : M 0 0 = 0) :
    find_max_local M m n = (0, 0, 0) := by
  unfold find_max_local
  rw [h00]
  exact foldl_max_const M _ (0, 0, 0) fun c hc => by
    rw [h c hc]; exact lt_irrefl 0

lemma grid_right_col (m : Nat) (c : Nat × Nat) (hc : c ∈ gridCells m 0) : c.2 = 0 := by
  simp only [gridCells, List.mem_flatMap, List.mem_map, List.mem_range] at hc
  obtain ⟨i, _, j, hj, rfl⟩ := hc
  omega

lemma grid_top_row (n : Nat) (c : Nat × Nat) (hc : c ∈ gridCells 0 n) : c.1 = 0 := by
  simp only [gridCells, List.mem_flatMap, List.mem_map, List.mem_range] at hc
  obtain ⟨i, hi, j, _, rfl⟩ := hc
  omega

lemma align_local_empty_right (A : List Char) (ms mm : Int)
    (subM : Option (Char → Char → Int)) (gap : Int) :
    (align A [] ms mm subM gap "local").1 = ([], [], 0) := by
  have hlg : ¬ ("local" : String) = "global" := by decide
  have hM : find_max_local (scoreM A [] ms mm subM gap "local") A.length 0 = (0, 0, 0) := by
    apply find_max_local_all_zero
    · intro c hc
      have h2 := grid_right_col A.length c hc
      rw [h2, scoreM_col0, if_neg hlg]
    · rw [show (0 : Nat) = (0 : Nat) from rfl, scoreM_col0, if_neg hlg]
  simp only [align, backtracking, List.length_nil, if_pos rfl, if_true, hM,
    btLoop_zero_left, if_neg hlg, List.reverse_nil]

lemma align_local_empty_left (B : List Char) (ms mm : Int)
    (subM : Option (Char → Char → Int)) (gap : Int) :
    (align [] B ms mm subM gap "local").1 = ([], [], 0) := by
  have hlg : ¬ ("local" : String) = "global" := by decide
  have hM : find_max_local (scoreM [] B ms mm subM gap "local") 0 B.length = (0, 0, 0) := by
    apply find_max_local_all_zero
    · intro c hc
      have h1 := grid_top_row B.length c hc
      rw [h1, scoreM_row0, if_neg hlg]
    · rw [scoreM_row0, if_neg hlg]
  simp only [align, backtracking, List.length_nil, if_pos rfl, if_true, hM,
    btLoop_zero_left, if_neg hlg, List.reverse_nil]

/-- C8: empty-sequence inputs are accepted without error.  Global alignment of the
empty sequence against any B yields |B| gap markers against B with score
|B|·gap_score; the concrete Scenario B (seqA = "", seqB = "ACGT", gap -1) gives
matrix row 0 = [0, -1, -2, -3, -4], alignedA = "----", alignedB = "ACGT", score -4;
and local alignment against an empty sequence, on either side, returns score 0 and
two empty aligned strings. -/
theorem C8_empty_sequences :
    (∀ (B : List Char) (ms mm : Int) (subM : Option (Char → Char → Int)) (gap : Int),
      (align [] B ms mm subM gap "global").1
        = (List.replicate B.length '-', B, (B.length : Int) * gap)) ∧
    ((scoreM [] ['A', 'C', 'G', 'T'] 2 (-1) none (-1) "global" 0 0 = 0 ∧
      scoreM [] ['A', 'C', 'G', 'T'] 2 (-1) none (-1) "global" 0 1 = -1 ∧
      scoreM [] ['A', 'C', 'G', 'T'] 2 (-1) none (-1) "global" 0 2 = -2 ∧
      scoreM [] ['A', 'C', 'G', 'T'] 2 (-1) none (-1) "global" 0 3 = -3 ∧
      scoreM [] ['A', 'C', 'G', 'T'] 2 (-1) none (-1) "global" 0 4 = -4) ∧
      (align [] ['A', 'C', 'G', 'T'] 2 (-1) none (-1) "global").1
        = (['-', '-', '-', '-'], ['A', 'C', 'G', 'T'], -4)) ∧
    (∀ (A : List Char) (ms mm : Int) (subM : Option (Char → Char → Int)) (gap : Int),
      (align A [] ms mm subM gap "local").1 = ([], [], 0)) ∧
    (∀ (B : List Char) (ms mm : Int) (subM : Option (Char → Char → Int)) (gap : Int),
      (align [] B ms mm subM gap "local").1 = ([], [], 0)) :=
  ⟨align_global_empty_left, ⟨by decide, by decide⟩, align_local_empty_right,
    align_local_empty_left⟩

end SeqAlign
